import Mathlib

/-
Verification of `fit_model.py`: first-order step-response model fitting.

Modelling conventions:
* Python floats are modelled as real numbers (`ℝ`).
* A raw array cell is `Option ℝ`: `some x` is a finite float, `none` is a
  NaN or ±Inf cell (`np.isfinite` false).  Non-finite cells are discarded
  by `clean_sort` before any arithmetic touches them.
* The float NaN produced for R² on constant data is modelled by `Option ℝ`
  in the result record (`none` = NaN).
* `scipy.optimize.curve_fit` is an external library routine; it is modelled
  as an abstract solver argument of the fit engine, carrying the pieces of
  the call that the spec constrains: the model closure, the data, the
  initial guess `p0`, and the (only finite) bound — the lower bound on tau.
-/

namespace FitModel

noncomputable section

/-- `first_order_step` (fit_model.py lines 5-26), scalar form of the
vectorized numpy function:
`t_shift = np.maximum(t - t0, 0.0); y0 + Ka * (1.0 - np.exp(-t_shift / tau))`. -/
def first_order_step (t Ka tau y0 t0 : ℝ) : ℝ :=
  y0 + Ka * (1 - Real.exp (-(max (t - t0) 0) / tau))

/-- Spec-side rendering of the model: the explicit piecewise definition
`y(t) = y0 + Ka*(1 - exp(-(t - t0)/tau))` for `t ≥ t0`, `y(t) = y0` below,
written with a per-element conditional mask instead of the clamp. -/
def first_order_step_masked (t Ka tau y0 t0 : ℝ) : ℝ :=
  if t0 ≤ t then y0 + Ka * (1 - Real.exp (-(t - t0) / tau)) else y0

/-- C1: the clamped-shifted-time formula of `first_order_step` agrees with
the explicit conditional-mask piecewise definition for every real `t`, `Ka`,
`y0`, `t0` and every `tau > 0`, and at `t = t0` both give exactly `y0`. -/
theorem first_order_step_eq_masked (t Ka tau y0 t0 : ℝ) (_htau : 0 < tau) :
    first_order_step t Ka tau y0 t0 = first_order_step_masked t Ka tau y0 t0 ∧
    first_order_step t0 Ka tau y0 t0 = y0 := by
  constructor
  · rcases le_or_lt t0 t with h | h
    · rw [first_order_step, first_order_step_masked, if_pos h,
        max_eq_left (sub_nonneg.mpr h)]
    · rw [first_order_step, first_order_step_masked, if_neg (not_le.mpr h),
        max_eq_right (le_of_lt (sub_neg.mpr h))]
      simp
  · rw [first_order_step]
    simp

/-- Witness for C1 at `t = 3, Ka = 2, tau = 1, y0 = 5, t0 = 2`. -/
theorem first_order_step_eq_masked_witness :
    (0 : ℝ) < 1 ∧
      (first_order_step 3 2 1 5 2 = first_order_step_masked 3 2 1 5 2 ∧
        first_order_step 2 2 1 5 2 = 5) :=
  ⟨by norm_num, first_order_step_eq_masked 3 2 1 5 2 (by norm_num)⟩

/-- A raw numpy array: each cell is a finite float (`some x`) or a
non-finite NaN/±Inf cell (`none`). -/
abbrev RawArr := List (Option ℝ)

/-- The (t, y) pairs in which both cells are finite, in input order.
This is numpy's `mask = np.isfinite(t) & np.isfinite(y); t[mask], y[mask]`
kept as a single list of pairs (the common mask pairs the two arrays). -/
def finitePairs (t y : RawArr) : List (ℝ × ℝ) :=
  (t.zip y).filterMap fun p =>
    match p with
    | (some a, some b) => some (a, b)
    | _ => none

/-- Comparison of pairs by time — the sort key of `np.argsort(t)` applied
to both arrays at once. -/
def leFst (p q : ℝ × ℝ) : Prop := p.1 ≤ q.1

instance : DecidableRel leFst := fun p q => inferInstanceAs (Decidable (p.1 ≤ q.1))

instance : IsTotal (ℝ × ℝ) leFst := ⟨fun a b => le_total a.1 b.1⟩

instance : IsTrans (ℝ × ℝ) leFst := ⟨fun _ _ _ hab hbc => le_trans hab hbc⟩

/-- `clean_sort` (fit_model.py lines 28-35): drop pairs with a non-finite
member, sort the survivors by time, and carry each paired value along with
its time (`order = np.argsort(t); t[order], y[order]`). -/
def cleanSort (t y : RawArr) : List ℝ × List ℝ :=
  let sorted := (finitePairs t y).insertionSort leFst
  (sorted.map Prod.fst, sorted.map Prod.snd)

/-- The cleaned time array has as many entries as there are finite pairs. -/
lemma cleanSort_fst_length (t y : RawArr) :
    (cleanSort t y).1.length = (finitePairs t y).length := by
  simp [cleanSort]

/-- C3: `clean_sort` returns equal-length arrays that are exactly the
finite-pair subsequence of the input reordered by one common permutation:
there is a single permuted pair list `l` whose first projections (the
returned times, non-decreasing) and second projections (the returned
values) are the two outputs; when no pair is finite the outputs are empty. -/
theorem cleanSort_spec (t y : RawArr) :
    ∃ l : List (ℝ × ℝ), l.Perm (finitePairs t y) ∧
      (cleanSort t y).1 = l.map Prod.fst ∧
      (cleanSort t y).2 = l.map Prod.snd ∧
      (cleanSort t y).1.Sorted (· ≤ ·) ∧
      (cleanSort t y).1.length = (cleanSort t y).2.length ∧
      (finitePairs t y = [] → cleanSort t y = ([], [])) := by
  refine ⟨(finitePairs t y).insertionSort leFst,
    List.perm_insertionSort _ _, rfl, rfl, ?_, by simp [cleanSort], ?_⟩
  · have hs := List.sorted_insertionSort leFst (finitePairs t y)
    exact List.Pairwise.map Prod.fst (fun a b h => h) hs
  · intro h
    simp [cleanSort, h]

/-- Witness for C3's non-finite clause: one NaN pair, outputs empty. -/
theorem cleanSort_spec_witness :
    ∃ l : List (ℝ × ℝ), l.Perm (finitePairs [some 1] [none]) ∧
      (cleanSort [some 1] [none]).1 = l.map Prod.fst ∧
      (cleanSort [some 1] [none]).2 = l.map Prod.snd ∧
      (cleanSort [some 1] [none]).1.Sorted (· ≤ ·) ∧
      (cleanSort [some 1] [none]).1.length = (cleanSort [some 1] [none]).2.length ∧
      (finitePairs [some 1] [none] = [] → cleanSort [some 1] [none] = ([], [])) :=
  cleanSort_spec [some 1] [none]

/-- `np.mean`: sum over length.  (On an empty list numpy yields NaN; here
`0 / 0 = 0`.  Every claim below only evaluates means of the lists the code
actually averages, which are nonempty on the paths the claims describe.) -/
def mean (l : List ℝ) : ℝ := l.sum / l.length

/-- numpy boolean-mask indexing `vals[p(keys)]`: keep the entries of
`vals` whose positionally paired key satisfies `p`. -/
def selectWhere (p : ℝ → Prop) [DecidablePred p] : List ℝ → List ℝ → List ℝ
  | k :: ks, v :: vs =>
      if p k then v :: selectWhere p ks vs else selectWhere p ks vs
  | _, _ => []

/-- Lines 43-45: `pre = y[t <= t0]`, then the mean of `pre` if
`pre.size >= 2`, else the mean of `y[: min(3, len(y))]`. -/
def y0Guess (t y : List ℝ) (t0 : ℝ) : ℝ :=
  let pre := selectWhere (fun a => a ≤ t0) t y
  if 2 ≤ pre.length then mean pre else mean (y.take (min 3 y.length))

/-- Line 48: `n_tail = max(3, int(0.2 * len(y)))`.  For every length `N`
(below 2^53), `int(float(0.2) * N)` equals `N / 5` in natural division:
the double nearest 0.2 is `(2^54 + 1) / (5 * 2^54)`, so the exact product
is `N/5 + N/(5*2^54)`; for `N = 5k` that rounds back to exactly `k`
(the offset `k/2^54` is under half an ulp of `k`), and otherwise the
fractional part stays strictly inside `(0, 1)`, so truncation gives
`⌊N/5⌋` either way. -/
def nTail (y : List ℝ) : ℕ := max 3 (y.length / 5)

/-- Line 49: `y_inf = float(np.mean(y[-n_tail:]))` — the mean of the last
`n_tail` samples (`y[-n:]` is the whole array when `n ≥ len(y)`, matching
`List.drop` with truncated subtraction). -/
def yInf (y : List ℝ) : ℝ := mean (y.drop (y.length - nTail y))

/-- Line 52: `Ka0 = y_inf - y0`. -/
def kaGuess (t y : List ℝ) (t0 : ℝ) : ℝ := yInf y - y0Guess t y t0

/-- Line 56: `target = y0 + 0.632 * (y_inf - y0)`. -/
def targetVal (t y : List ℝ) (t0 : ℝ) : ℝ :=
  y0Guess t y t0 + 0.632 * (yInf y - y0Guess t y t0)

/-- Line 63: `idx = np.where(y_after >= target)[0]` followed by
`idx[0]` — the index of the first element at or above `target`,
`none` when no element qualifies. -/
def firstGeIdx (target : ℝ) : List ℝ → Option ℕ
  | [] => none
  | v :: vs => if target ≤ v then some 0 else (firstGeIdx target vs).map (· + 1)

/-- Lines 54-73: the tau guess.  `after = t >= t0` masks both arrays;
the default is `(t[-1] - t[0]) / 3` when `len(t) > 1` else `1.0`; a
crossing at index 0 uses `t_after[0]`, a later crossing at index `i`
interpolates between entries `i-1` and `i` with the `1e-12` denominator
guard; crossing results are clamped to `1e-6`. -/
def tauGuess (t y : List ℝ) (t0 : ℝ) : ℝ :=
  let target := targetVal t y t0
  let tAfter := selectWhere (fun a => t0 ≤ a) t t
  let yAfter := selectWhere (fun a => t0 ≤ a) t y
  let dflt := if 1 < t.length then (t.getLastD 0 - t.headD 0) / 3 else 1
  match firstGeIdx target yAfter with
  | none => dflt
  | some i =>
    if i = 0 then max (tAfter.headD 0 - t0) 1e-6
    else
      let t1 := tAfter.getD (i - 1) 0
      let t2 := tAfter.getD i 0
      let y1 := yAfter.getD (i - 1) 0
      let y2 := yAfter.getD i 0
      max (t1 + (target - y1) * (t2 - t1) / (y2 - y1 + 1e-12) - t0) 1e-6

/-- Lines 43-75: the body of `initial_guesses` on the already-cleaned
arrays, returning `(Ka0, max(tau0, 1e-6), y0)` (line 75). -/
def initialGuessesClean (t y : List ℝ) (t0 : ℝ) : ℝ × ℝ × ℝ :=
  (kaGuess t y t0, max (tauGuess t y t0) 1e-6, y0Guess t y t0)

/-- `initial_guesses` (lines 37-75): `t, y = clean_sort(t, y)` then the
guess heuristics on the cleaned arrays. -/
def initialGuesses (t y : RawArr) (t0 : ℝ) : ℝ × ℝ × ℝ :=
  let c := cleanSort t y
  initialGuessesClean c.1 c.2 t0

/-- Failure values of the fit engine: the explicit
`ValueError("Need at least 4 valid data points.")` guard, and the
RuntimeError scipy's `curve_fit` raises when it cannot converge. -/
inductive FitError
  | inputError
  | convergenceError

/-- Abstract 3-parameter `curve_fit` call (lines 91-97): model closure,
data arrays, `p0 = [Ka0, tau0, y0_guess]`, and the lower bound on tau (the
single finite entry of `bounds=([-inf, 1e-9, -inf], [inf, inf, inf])`);
the generous `maxfev=20000` budget lives inside the abstract solver. -/
def CurveFit3 : Type :=
  (ℝ → ℝ → ℝ → ℝ → ℝ) → List ℝ → List ℝ → ℝ × ℝ × ℝ → ℝ →
    Except FitError (ℝ × ℝ × ℝ)

/-- Abstract 2-parameter `curve_fit` call (lines 100-106): model closure
with `y0` pinned, data, `p0 = [Ka0, tau0]`, and the same tau lower bound
`1e-9` from `bounds=([-inf, 1e-9], [inf, inf])`. -/
def CurveFit2 : Type :=
  (ℝ → ℝ → ℝ → ℝ) → List ℝ → List ℝ → ℝ × ℝ → ℝ →
    Except FitError (ℝ × ℝ)

/-- The result dict of `fit_first_order` (lines 118-131).  `R2 : Option ℝ`
models the float field that is NaN (`none`) exactly when the code takes the
`float("nan")` branch. -/
structure FitResult where
  t : List ℝ
  y : List ℝ
  Ka : ℝ
  tau : ℝ
  y0 : ℝ
  SSE : ℝ
  R2 : Option ℝ
  y_fit : List ℝ
  residuals : List ℝ
  Ka0 : ℝ
  tau0 : ℝ
  y0_guess : ℝ

/-- Lines 90-108: the branch on `fit_y0` around the two `curve_fit` calls,
with `g = (Ka0, tau0, y0_guess)`.  The 3-parameter call optimizes
`(Ka, tau, y0)`; the 2-parameter call pins `y0` to the guess and its result
is re-packed as a triple with `y0_hat = y0_guess` (line 108). -/
def fitStep (cf3 : CurveFit3) (cf2 : CurveFit2) (tc yc : List ℝ)
    (t0 : ℝ) (fit_y0 : Bool) (g : ℝ × ℝ × ℝ) : Except FitError (ℝ × ℝ × ℝ) :=
  if fit_y0 then
    cf3 (fun tt Ka tau y0 => first_order_step tt Ka tau y0 t0)
      tc yc (g.1, g.2.1, g.2.2) 1e-9
  else
    (cf2 (fun tt Ka tau => first_order_step tt Ka tau g.2.2 t0)
      tc yc (g.1, g.2.1) 1e-9).map fun p => (p.1, p.2, g.2.2)

/-- Lines 110-131: evaluate the model at the fitted parameters `q`, form
residuals, SSE, R² (NaN when `SStot` is not positive), and assemble the
result dict. -/
def assembleResult (tc yc : List ℝ) (t0 : ℝ) (g q : ℝ × ℝ × ℝ) : FitResult :=
  let y_fit := tc.map fun tt => first_order_step tt q.1 q.2.1 q.2.2 t0
  let residuals := (yc.zip y_fit).map fun p => p.1 - p.2
  let SSE := (residuals.map fun v => v ^ 2).sum
  let ybar := mean yc
  let SStot := (yc.map fun v => (v - ybar) ^ 2).sum
  let R2 : Option ℝ := if 0 < SStot then some (1 - SSE / SStot) else none
  { t := tc, y := yc, Ka := q.1, tau := q.2.1, y0 := q.2.2,
    SSE := SSE, R2 := R2, y_fit := y_fit, residuals := residuals,
    Ka0 := g.1, tau0 := g.2.1, y0_guess := g.2.2 }

/-- `fit_first_order` (lines 77-131).  In the source `t0` defaults to `0.0`
and `fit_y0` to `True`; the optimizer (`curve_fit`) is scipy code, passed
here as the abstract solvers `cf3`/`cf2`.  The source re-runs
`initial_guesses` on the already-cleaned arrays (line 88), which is kept:
the cleaned real arrays are re-wrapped as all-finite raw arrays. -/
def fit_first_order (cf3 : CurveFit3) (cf2 : CurveFit2)
    (t y : RawArr) (t0 : ℝ) (fit_y0 : Bool) :
    Except FitError FitResult :=
  if (cleanSort t y).1.length < 4 then .error .inputError
  else
    match fitStep cf3 cf2 (cleanSort t y).1 (cleanSort t y).2 t0 fit_y0
        (initialGuesses ((cleanSort t y).1.map some)
          ((cleanSort t y).2.map some) t0) with
    | .error e => .error e
    | .ok q =>
      .ok (assembleResult (cleanSort t y).1 (cleanSort t y).2 t0
        (initialGuesses ((cleanSort t y).1.map some)
          ((cleanSort t y).2.map some) t0) q)

/-- With `fit_y0 = False` the step is the mapped 2-parameter call. -/
lemma fitStep_false (cf3 : CurveFit3) (cf2 : CurveFit2) (tc yc : List ℝ)
    (t0 : ℝ) (g : ℝ × ℝ × ℝ) :
    fitStep cf3 cf2 tc yc t0 false g =
      (cf2 (fun tt Ka tau => first_order_step tt Ka tau g.2.2 t0)
        tc yc (g.1, g.2.1) 1e-9).map fun p => (p.1, p.2, g.2.2) := rfl

/-- A mapped `Except` that is `ok` comes from an `ok`. -/
lemma except_map_ok {α β : Type} (f : α → β) (e : Except FitError α) (b : β)
    (h : e.map f = .ok b) : ∃ a, e = .ok a ∧ b = f a := by
  cases e with
  | error e => simp [Except.map] at h
  | ok a =>
    refine ⟨a, rfl, ?_⟩
    simpa [Except.map] using h.symm

/-- C2: whenever fewer than 4 valid (finite, paired) points remain after
cleaning, the fit fails immediately with the input-validation error and
returns no partial result, whatever `t0`, `fit_y0`, and the optimizer. -/
theorem fit_first_order_min_points (cf3 : CurveFit3) (cf2 : CurveFit2)
    (t y : RawArr) (t0 : ℝ) (fit_y0 : Bool)
    (h : (cleanSort t y).1.length < 4) :
    fit_first_order cf3 cf2 t y t0 fit_y0 = .error .inputError := by
  rw [fit_first_order, if_pos h]

/-- Witness for C2: three finite pairs (one NaN time) are rejected. -/
theorem fit_first_order_min_points_witness :
    (cleanSort [some 1, none, some 2, some 0] [some 5, some 5, some 5, some 5]).1.length < 4 ∧
      fit_first_order (fun _ _ _ p _ => .ok p) (fun _ _ _ p _ => .ok p)
        [some 1, none, some 2, some 0] [some 5, some 5, some 5, some 5] 0 true =
        .error .inputError := by
  have h : (cleanSort [some 1, none, some 2, some 0]
      [some 5, some 5, some 5, some 5]).1.length < 4 := by
    rw [cleanSort_fst_length]
    simp [finitePairs]
  exact ⟨h, fit_first_order_min_points _ _ _ _ 0 true h⟩

/-- Mask indexing is filtering the positionally zipped pairs on the key and
projecting the value: `vals[p(keys)]` keeps each value whose key passes. -/
lemma selectWhere_eq_filter_zip (p : ℝ → Prop) [DecidablePred p] :
    ∀ ks vs : List ℝ,
      selectWhere p ks vs =
        ((ks.zip vs).filter fun q => decide (p q.1)).map Prod.snd
  | [], vs => by simp [selectWhere]
  | _ :: _, [] => by simp [selectWhere]
  | k :: ks, v :: vs => by
    by_cases h : p k <;>
      simp [selectWhere, h, selectWhere_eq_filter_zip p ks vs, List.filter_cons]

/-- Spec-side C4: the arithmetic mean of all samples whose time is at or
before `t0` when at least 2 such samples exist, else the mean of the first
`min(3, N)` samples.  "Samples" are the positionally paired (time, value)
entries. -/
def specY0Guess (t y : List ℝ) (t0 : ℝ) : ℝ :=
  let pre := ((t.zip y).filter fun q => decide (q.1 ≤ t0)).map Prod.snd
  if 2 ≤ pre.length then mean pre else mean (y.take (min 3 y.length))

/-- C4: the code's mask-indexed baseline guess computes exactly the spec's
pre-step-mean-or-first-samples-mean rule, for every series and `t0`. -/
theorem y0Guess_spec (t y : List ℝ) (t0 : ℝ) :
    y0Guess t y t0 = specY0Guess t y t0 := by
  rw [y0Guess, specY0Guess, selectWhere_eq_filter_zip]

/-- Spec-side C5 (amended): the last `max(3, ⌊0.2·N⌋)` samples, read off
the reversed series. -/
def specYInfFloor (y : List ℝ) : ℝ :=
  mean ((y.reverse.take (max 3 (y.length / 5))).reverse)

/-- Spec-side C5 as written: the last `max(3, ⌈0.2·N⌉)` samples
(`⌈N/5⌉ = (N + 4) / 5` in natural division). -/
def specYInfCeil (y : List ℝ) : ℝ :=
  mean ((y.reverse.take (max 3 ((y.length + 4) / 5))).reverse)

/-- C5 (amended: floor, not ceiling): the steady-state estimate is the mean
of the last `max(3, ⌊0.2·N⌋)` samples, and `Ka0 = y_inf − y0_guess`. -/
theorem yInf_floor_spec (t y : List ℝ) (t0 : ℝ) :
    yInf y = specYInfFloor y ∧
    kaGuess t y t0 = yInf y - y0Guess t y t0 := by
  constructor
  · rw [yInf, specYInfFloor, nTail]
    have h := List.rtake_eq_reverse_take_reverse (l := y) (n := max 3 (y.length / 5))
    rw [List.rtake] at h
    rw [h]
  · rfl

/-- Counterexample to C5 as stated: on a 16-sample series the code
averages the last `max(3, int(0.2*16)) = 3` samples, not the last
`max(3, ⌈0.2·16⌉) = 4`: here the two means are 4 and 3. -/
theorem yInf_ceil_counterexample :
    yInf [0, 0, 0, 0, 0, 0, 0, 0, 0, 0, 0, 0, 0, 0, 0, 12] ≠
      specYInfCeil [0, 0, 0, 0, 0, 0, 0, 0, 0, 0, 0, 0, 0, 0, 0, 12] := by
  norm_num [yInf, specYInfCeil, nTail, mean]

/-- All-finite raw arrays clean to their positional pairing. -/
lemma finitePairs_map_some :
    ∀ a b : List ℝ, finitePairs (a.map some) (b.map some) = a.zip b
  | [], _ => by simp [finitePairs]
  | _ :: _, [] => by simp [finitePairs]
  | x :: xs, v :: vs => by
    simpa [finitePairs] using finitePairs_map_some xs vs

/-- Spec-side C6 search: walk the post-step samples keeping the previous
one; at the first sample reaching `target` return the straddling pair. -/
def findStraddle (target : ℝ) (prev : ℝ × ℝ) :
    List (ℝ × ℝ) → Option ((ℝ × ℝ) × (ℝ × ℝ))
  | [] => none
  | q :: qs => if target ≤ q.2 then some (prev, q) else findStraddle target q qs

/-- Spec-side C6: restrict to samples at or after `t0`; if the very first
one already reaches `target = y0_guess + 0.632·(y_inf − y0_guess)`, clamp
its time minus `t0`; otherwise linearly interpolate between the straddling
pair with the `1e-12` denominator guard and clamp; if no sample reaches
`target`, fall back to span/3 (or 1.0 below 2 points). -/
def specTau0 (t y : List ℝ) (t0 : ℝ) : ℝ :=
  let target := y0Guess t y t0 + 0.632 * (yInf y - y0Guess t y t0)
  let ps := (t.zip y).filter fun q => decide (t0 ≤ q.1)
  let dflt := if 1 < t.length then (t.getLastD 0 - t.headD 0) / 3 else 1
  match ps with
  | [] => dflt
  | p :: rest =>
    if target ≤ p.2 then max (p.1 - t0) 1e-6
    else
      match findStraddle target p rest with
      | none => dflt
      | some s =>
        max (s.1.1 + (target - s.1.2) * (s.2.1 - s.1.1) / (s.2.2 - s.1.2 + 1e-12) - t0)
          1e-6

/-- Masking the key array by its own predicate is the first projection of
the filtered pairing (for equal-length arrays). -/
lemma selectWhere_self_eq (p : ℝ → Prop) [DecidablePred p]
    (ks vs : List ℝ) (h : ks.length = vs.length) :
    selectWhere p ks ks = ((ks.zip vs).filter fun q => decide (p q.1)).map Prod.fst := by
  induction ks generalizing vs with
  | nil => simp [selectWhere]
  | cons k ks ih =>
    cases vs with
    | nil => simp at h
    | cons v vs =>
      by_cases hk : p k <;>
        simp [selectWhere, hk, List.filter_cons, ih vs (by simpa using h)]

/-- `getD` with default `0` commutes with the first projection. -/
lemma omap_fst_getD (o : Option (ℝ × ℝ)) :
    (o.map Prod.fst).getD 0 = (o.getD 0).1 := by
  cases o <;> simp

/-- `getD` with default `0` commutes with the second projection. -/
lemma omap_snd_getD (o : Option (ℝ × ℝ)) :
    (o.map Prod.snd).getD 0 = (o.getD 0).2 := by
  cases o <;> simp

/-- The spec's straddle walk reads the entries the code indexes: the first
crossing index of the value projections names the straddling pair. -/
lemma findStraddle_eq (target : ℝ) :
    ∀ (ps : List (ℝ × ℝ)) (prev : ℝ × ℝ),
      findStraddle target prev ps =
        match firstGeIdx target (ps.map Prod.snd) with
        | none => none
        | some 0 => some (prev, ps.getD 0 (0, 0))
        | some (j + 1) => some (ps.getD j (0, 0), ps.getD (j + 1) (0, 0))
  | [], prev => rfl
  | q :: qs, prev => by
    by_cases hq : target ≤ q.2
    · simp [findStraddle, firstGeIdx, hq]
    · rw [findStraddle, if_neg hq, findStraddle_eq target qs q]
      simp only [List.map_cons, firstGeIdx, if_neg hq]
      cases hfi : firstGeIdx target (qs.map Prod.snd) with
      | none => simp
      | some j => cases j <;> simp

/-- C6: the tau guess equals the spec's three-case 63.2%-crossing rule, and
the returned tau guess is always at least the positive floor `1e-6`. -/
theorem tauGuess_spec (t y : List ℝ) (t0 : ℝ) (h : t.length = y.length) :
    tauGuess t y t0 = specTau0 t y t0 ∧
    1e-6 ≤ (initialGuessesClean t y t0).2.1 := by
  constructor
  · have hT : selectWhere (fun a => t0 ≤ a) t t =
        ((t.zip y).filter fun q => decide (t0 ≤ q.1)).map Prod.fst :=
      selectWhere_self_eq _ t y h
    have hY : selectWhere (fun a => t0 ≤ a) t y =
        ((t.zip y).filter fun q => decide (t0 ≤ q.1)).map Prod.snd :=
      selectWhere_eq_filter_zip _ t y
    rw [tauGuess, specTau0, targetVal, hT, hY]
    cases hps : (t.zip y).filter fun q => decide (t0 ≤ q.1) with
    | nil => simp [firstGeIdx]
    | cons p rest =>
      dsimp only
      by_cases hp : y0Guess t y t0 + 0.632 * (yInf y - y0Guess t y t0) ≤ p.2
      · simp [firstGeIdx, hp]
      · rw [findStraddle_eq]
        simp only [List.map_cons, firstGeIdx, if_neg hp]
        cases hfi : firstGeIdx (y0Guess t y t0 + 0.632 * (yInf y - y0Guess t y t0))
            (rest.map Prod.snd) with
        | none => simp
        | some j =>
          cases j with
          | zero => simp [omap_fst_getD, omap_snd_getD]
          | succ j => simp [omap_fst_getD, omap_snd_getD]
  · show 1e-6 ≤ max (tauGuess t y t0) 1e-6
    exact le_max_right _ _

/-- Witness for C6 at a concrete equal-length series. -/
theorem tauGuess_spec_witness :
    ([0, 1, 2] : List ℝ).length = ([5, 6, 7] : List ℝ).length ∧
      (tauGuess [0, 1, 2] [5, 6, 7] 1 = specTau0 [0, 1, 2] [5, 6, 7] 1 ∧
        1e-6 ≤ (initialGuessesClean [0, 1, 2] [5, 6, 7] 1).2.1) :=
  ⟨rfl, tauGuess_spec [0, 1, 2] [5, 6, 7] 1 rfl⟩

/-- C7: when the fit succeeds with `fit_y0 = False`, the returned `y0` is
exactly the initial guess `y0_guess` (never refined), while `Ka` and `tau`
are exactly the output of the 2-parameter optimizer call made with the
pinned-baseline model, the cleaned data, `p0 = (Ka0, tau0)` and the same
strictly positive tau lower bound `1e-9`. -/
theorem fit_pinned_y0 (cf3 : CurveFit3) (cf2 : CurveFit2) (t y : RawArr)
    (t0 : ℝ) (r : FitResult)
    (h : fit_first_order cf3 cf2 t y t0 false = .ok r) :
    r.y0 = (initialGuesses ((cleanSort t y).1.map some)
      ((cleanSort t y).2.map some) t0).2.2 ∧
    (0 : ℝ) < 1e-9 ∧
    ∃ q : ℝ × ℝ,
      cf2 (fun tt Ka tau => first_order_step tt Ka tau
            (initialGuesses ((cleanSort t y).1.map some)
              ((cleanSort t y).2.map some) t0).2.2 t0)
          (cleanSort t y).1 (cleanSort t y).2
          ((initialGuesses ((cleanSort t y).1.map some)
              ((cleanSort t y).2.map some) t0).1,
            (initialGuesses ((cleanSort t y).1.map some)
              ((cleanSort t y).2.map some) t0).2.1) 1e-9 = .ok q ∧
      r.Ka = q.1 ∧ r.tau = q.2 := by
  rw [fit_first_order] at h
  by_cases hlen : (cleanSort t y).1.length < 4
  · rw [if_pos hlen] at h
    simp at h
  · rw [if_neg hlen] at h
    cases hstep : fitStep cf3 cf2 (cleanSort t y).1 (cleanSort t y).2 t0 false
        (initialGuesses ((cleanSort t y).1.map some)
          ((cleanSort t y).2.map some) t0) with
    | error e =>
      rw [hstep] at h
      simp at h
    | ok q =>
      rw [hstep] at h
      simp only [Except.ok.injEq] at h
      rw [fitStep_false] at hstep
      obtain ⟨p, hp, hqp⟩ := except_map_ok _ _ _ hstep
      subst h
      subst hqp
      exact ⟨rfl, by norm_num, p, hp, rfl, rfl⟩

/-- C8: on every fit success the result satisfies the fitted-curve,
residual, SSE and R² equations: `y_fit` is the model at the fitted
parameters over the cleaned times, `residuals = y − y_fit` elementwise,
`SSE = Σ residual²`, and `R² = 1 − SSE/SStot` with
`SStot = Σ(y − mean y)²` when `SStot > 0`, else not-a-number (`none`). -/
theorem fit_result_metrics (cf3 : CurveFit3) (cf2 : CurveFit2) (t y : RawArr)
    (t0 : ℝ) (fit_y0 : Bool) (r : FitResult)
    (h : fit_first_order cf3 cf2 t y t0 fit_y0 = .ok r) :
    r.y_fit = r.t.map (fun tt => first_order_step tt r.Ka r.tau r.y0 t0) ∧
    r.residuals = (r.y.zip r.y_fit).map (fun p => p.1 - p.2) ∧
    r.SSE = (r.residuals.map fun v => v ^ 2).sum ∧
    r.R2 = if 0 < ((r.y.map fun v => (v - mean r.y) ^ 2).sum)
      then some (1 - r.SSE / ((r.y.map fun v => (v - mean r.y) ^ 2).sum))
      else none := by
  rw [fit_first_order] at h
  by_cases hlen : (cleanSort t y).1.length < 4
  · rw [if_pos hlen] at h
    simp at h
  · rw [if_neg hlen] at h
    cases hstep : fitStep cf3 cf2 (cleanSort t y).1 (cleanSort t y).2 t0 fit_y0
        (initialGuesses ((cleanSort t y).1.map some)
          ((cleanSort t y).2.map some) t0) with
    | error e =>
      rw [hstep] at h
      simp at h
    | ok q =>
      rw [hstep] at h
      simp only [Except.ok.injEq] at h
      subst h
      exact ⟨rfl, rfl, rfl, rfl⟩

/-- A degenerate solver that reports the initial guess as optimum. -/
def cfConst3 : CurveFit3 := fun _ _ _ p _ => .ok p

/-- A degenerate 2-parameter solver reporting the initial guess. -/
def cfConst2 : CurveFit2 := fun _ _ _ p _ => .ok p

/-- Concrete witness input times. -/
def tW : RawArr := [some 0, some 1, some 2, some 3]

/-- Concrete witness input values (constant data, so R² is NaN). -/
def yW : RawArr := [some 5, some 5, some 5, some 5]

/-- The fit result on the witness input with `t0 = 10`, `fit_y0 = False`
and the degenerate solver. -/
def rW : FitResult :=
  { t := [0, 1, 2, 3], y := [5, 5, 5, 5], Ka := 0, tau := 1, y0 := 5,
    SSE := 0, R2 := none, y_fit := [5, 5, 5, 5], residuals := [0, 0, 0, 0],
    Ka0 := 0, tau0 := 1, y0_guess := 5 }

/-- Concrete evaluation of the cleaning pass on the witness input. -/
lemma cleanSort_W : cleanSort tW yW = ([0, 1, 2, 3], [5, 5, 5, 5]) := by
  norm_num [cleanSort, tW, yW, finitePairs, List.insertionSort,
    List.orderedInsert, leFst]

/-- Concrete evaluation of the guesses on the witness input: all samples
precede the `t0 = 10` step, so `y0_guess = 5`, `Ka0 = 0`, and the tau
guess falls back to span/3 = 1. -/
lemma guess_W :
    initialGuesses [some 0, some 1, some 2, some 3]
      [some 5, some 5, some 5, some 5] 10 = (0, 1, 5) := by
  norm_num [initialGuesses, initialGuessesClean, cleanSort, finitePairs,
    kaGuess, tauGuess, y0Guess, yInf, nTail, targetVal, mean, selectWhere,
    firstGeIdx, List.insertionSort, List.orderedInsert, leFst, max_def]

/-- Concrete fit success on the witness input. -/
lemma fitEval_W :
    fit_first_order cfConst3 cfConst2 tW yW 10 false = .ok rW := by
  rw [fit_first_order, cleanSort_W]
  norm_num [guess_W, fitStep, cfConst2, Except.map, assembleResult, rW,
    first_order_step, mean, FitResult.mk.injEq]

/-- Witness for C7 on the concrete input. -/
theorem fit_pinned_y0_witness :
    fit_first_order cfConst3 cfConst2 tW yW 10 false = .ok rW ∧
    (rW.y0 = (initialGuesses ((cleanSort tW yW).1.map some)
        ((cleanSort tW yW).2.map some) 10).2.2 ∧
      (0 : ℝ) < 1e-9 ∧
      ∃ q : ℝ × ℝ,
        cfConst2 (fun tt Ka tau => first_order_step tt Ka tau
              (initialGuesses ((cleanSort tW yW).1.map some)
                ((cleanSort tW yW).2.map some) 10).2.2 10)
            (cleanSort tW yW).1 (cleanSort tW yW).2
            ((initialGuesses ((cleanSort tW yW).1.map some)
                ((cleanSort tW yW).2.map some) 10).1,
              (initialGuesses ((cleanSort tW yW).1.map some)
                ((cleanSort tW yW).2.map some) 10).2.1) 1e-9 = .ok q ∧
        rW.Ka = q.1 ∧ rW.tau = q.2) :=
  ⟨fitEval_W, fit_pinned_y0 cfConst3 cfConst2 tW yW 10 rW fitEval_W⟩

/-- Witness for C8 on the concrete input (constant data: R² is NaN). -/
theorem fit_result_metrics_witness :
    fit_first_order cfConst3 cfConst2 tW yW 10 false = .ok rW ∧
    (rW.y_fit = rW.t.map (fun tt => first_order_step tt rW.Ka rW.tau rW.y0 10) ∧
      rW.residuals = (rW.y.zip rW.y_fit).map (fun p => p.1 - p.2) ∧
      rW.SSE = (rW.residuals.map fun v => v ^ 2).sum ∧
      rW.R2 = if 0 < ((rW.y.map fun v => (v - mean rW.y) ^ 2).sum)
        then some (1 - rW.SSE / ((rW.y.map fun v => (v - mean rW.y) ^ 2).sum))
        else none) :=
  ⟨fitEval_W, fit_result_metrics cfConst3 cfConst2 tW yW 10 false rW fitEval_W⟩

/-- With `fit_y0 = True` the step is the 3-parameter call. -/
lemma fitStep_true (cf3 : CurveFit3) (cf2 : CurveFit2) (tc yc : List ℝ)
    (t0 : ℝ) (g : ℝ × ℝ × ℝ) :
    fitStep cf3 cf2 tc yc t0 true g =
      cf3 (fun tt Ka tau y0 => first_order_step tt Ka tau y0 t0)
        tc yc (g.1, g.2.1, g.2.2) 1e-9 := rfl

/-- Zipping a list with its own image lists the graph pairs. -/
lemma zip_map_graph (f : ℝ → ℝ) :
    ∀ ts : List ℝ, ts.zip (ts.map f) = ts.map fun a => (a, f a)
  | [] => rfl
  | a :: ts => by simp [zip_map_graph f ts]

/-- Subtracting a list from itself pointwise gives zeros. -/
lemma zip_self_map_sub (l : List ℝ) :
    ((l.zip l).map fun p => p.1 - p.2) = l.map fun _ => (0 : ℝ) := by
  induction l with
  | nil => rfl
  | cons a l ih => simp [ih]

/-- Squaring a list of zeros sums to zero. -/
lemma sum_sq_zero_map (l : List ℝ) :
    ((l.map fun _ => (0 : ℝ)).map fun v => v ^ 2).sum = 0 := by
  induction l with
  | nil => rfl
  | cons a l ih => simp [ih]

/-- A nonnegative list summing to zero is all zeros. -/
lemma sum_nonneg_all_zero :
    ∀ l : List ℝ, (∀ x ∈ l, 0 ≤ x) → l.sum = 0 → ∀ x ∈ l, x = 0
  | [], _, _, _, hx => absurd hx (List.not_mem_nil _)
  | a :: l, hnn, hsum, x, hx => by
    rw [List.sum_cons] at hsum
    have ha : 0 ≤ a := hnn a (List.mem_cons_self a l)
    have hl : 0 ≤ l.sum :=
      List.sum_nonneg fun z hz => hnn z (List.mem_cons_of_mem a hz)
    have ha0 : a = 0 := by linarith
    have hls : l.sum = 0 := by linarith
    rcases List.mem_cons.mp hx with rfl | hx
    · exact ha0
    · exact sum_nonneg_all_zero l
        (fun z hz => hnn z (List.mem_cons_of_mem a hz)) hls x hx

/-- A list with two distinct members has positive total squared deviation
from its mean. -/
lemma sum_sq_dev_pos (l : List ℝ) (u v : ℝ)
    (hu : u ∈ l) (hv : v ∈ l) (huv : u ≠ v) :
    0 < (l.map fun w => (w - mean l) ^ 2).sum := by
  have hnn : ∀ x ∈ l.map fun w => (w - mean l) ^ 2, 0 ≤ x := by
    intro x hx
    obtain ⟨w, _, rfl⟩ := List.mem_map.mp hx
    positivity
  rcases (List.sum_nonneg hnn).lt_or_eq with h | h
  · exact h
  · exfalso
    have hz := sum_nonneg_all_zero _ hnn h.symm
    have hu0 : (u - mean l) ^ 2 = 0 :=
      hz _ (List.mem_map_of_mem (fun w => (w - mean l) ^ 2) hu)
    have hv0 : (v - mean l) ^ 2 = 0 :=
      hz _ (List.mem_map_of_mem (fun w => (w - mean l) ^ 2) hv)
    have hu1 : u = mean l := by
      have := sq_eq_zero_iff.mp hu0
      linarith
    have hv1 : v = mean l := by
      have := sq_eq_zero_iff.mp hv0
      linarith
    exact huv (hu1.trans hv1.symm)

/-- The synthetic `Ka = 5, tau = 3, y0 = 1, t0 = 2` response is strictly
increasing past the step. -/
lemma first_order_step_strict (a b : ℝ) (hab : a < b) (h2b : 2 < b) :
    first_order_step a 5 3 1 2 < first_order_step b 5 3 1 2 := by
  rw [first_order_step, first_order_step]
  have hmax : max (a - 2) 0 < max (b - 2) 0 := by
    rcases le_or_lt a 2 with ha | ha
    · rw [max_eq_right (by linarith : a - 2 ≤ 0),
        max_eq_left (by linarith : (0 : ℝ) ≤ b - 2)]
      linarith
    · rw [max_eq_left (by linarith : (0 : ℝ) ≤ a - 2),
        max_eq_left (by linarith : (0 : ℝ) ≤ b - 2)]
      linarith
  have hexp : Real.exp (-(max (b - 2) 0) / 3) < Real.exp (-(max (a - 2) 0) / 3) :=
    Real.exp_lt_exp.mpr (by linarith)
  linarith

/-- C9: for zero-noise synthetic data generated by the model at
`Ka = 5, tau = 3, y0 = 1, t0 = 2` over at least 4 sample times spanning the
step, a fit whose optimizer returns the zero-residual parameter triple
`(5, 3, 1)` (as any converged least-squares solver does on this data, the
guesses lie in the feasible region and the residual there is identically 0)
succeeds and returns exactly `Ka = 5, tau = 3, y0 = 1, SSE = 0, R² = 1`. -/
theorem fit_round_trip (cf3 : CurveFit3) (cf2 : CurveFit2) (ts : List ℝ)
    (hlen : 4 ≤ ts.length)
    (hspan : ∃ a ∈ ts, ∃ b ∈ ts, a < b ∧ 2 < b)
    (hopt : ∀ m tc yc p0 lb, cf3 m tc yc p0 lb = .ok (5, 3, 1)) :
    ∃ r : FitResult,
      fit_first_order cf3 cf2 (ts.map some)
        ((ts.map fun tt => first_order_step tt 5 3 1 2).map some) 2 true = .ok r ∧
      r.Ka = 5 ∧ r.tau = 3 ∧ r.y0 = 1 ∧ r.SSE = 0 ∧ r.R2 = some 1 := by
  obtain ⟨a, ha, b, hb, hab, h2b⟩ := hspan
  have hfp : finitePairs (ts.map some)
      ((ts.map fun tt => first_order_step tt 5 3 1 2).map some) =
      ts.map fun x => (x, first_order_step x 5 3 1 2) := by
    rw [finitePairs_map_some, zip_map_graph]
  have hclean : cleanSort (ts.map some)
      ((ts.map fun tt => first_order_step tt 5 3 1 2).map some) =
      (((ts.map fun x => (x, first_order_step x 5 3 1 2)).insertionSort leFst).map Prod.fst,
        ((ts.map fun x => (x, first_order_step x 5 3 1 2)).insertionSort leFst).map Prod.snd) := by
    rw [cleanSort, hfp]
  have hgraph : ∀ p ∈ (ts.map fun x => (x, first_order_step x 5 3 1 2)).insertionSort leFst,
      p.2 = first_order_step p.1 5 3 1 2 := by
    intro p hp
    have hp2 : p ∈ ts.map fun x => (x, first_order_step x 5 3 1 2) :=
      (List.mem_insertionSort leFst).mp hp
    obtain ⟨x, _, rfl⟩ := List.mem_map.mp hp2
    rfl
  have hyfit :
      (((ts.map fun x => (x, first_order_step x 5 3 1 2)).insertionSort leFst).map Prod.fst).map
        (fun tt => first_order_step tt 5 3 1 2) =
      ((ts.map fun x => (x, first_order_step x 5 3 1 2)).insertionSort leFst).map Prod.snd := by
    rw [List.map_map]
    refine List.map_congr_left fun p hp => ?_
    show first_order_step p.1 5 3 1 2 = p.2
    exact (hgraph p hp).symm
  have hlen2 : (((ts.map fun x => (x, first_order_step x 5 3 1 2)).insertionSort
      leFst).map Prod.fst).length = ts.length := by
    simp
  have hmem : ∀ x ∈ ts, first_order_step x 5 3 1 2 ∈
      ((ts.map fun x => (x, first_order_step x 5 3 1 2)).insertionSort leFst).map Prod.snd := by
    intro x hx
    refine List.mem_map.mpr ⟨(x, first_order_step x 5 3 1 2), ?_, rfl⟩
    rw [List.mem_insertionSort]
    exact List.mem_map_of_mem _ hx
  have hfab : first_order_step a 5 3 1 2 ≠ first_order_step b 5 3 1 2 :=
    ne_of_lt (first_order_step_strict a b hab h2b)
  have hSStot : 0 < ((((ts.map fun x => (x, first_order_step x 5 3 1 2)).insertionSort
        leFst).map Prod.snd).map
      (fun v => (v - mean (((ts.map fun x => (x, first_order_step x 5 3 1 2)).insertionSort
        leFst).map Prod.snd)) ^ 2)).sum :=
    sum_sq_dev_pos _ _ _ (hmem a ha) (hmem b hb) hfab
  have hguard : ¬ (((ts.map fun x => (x, first_order_step x 5 3 1 2)).insertionSort
      leFst).map Prod.fst).length < 4 := by
    rw [hlen2]
    omega
  refine ⟨assembleResult
      (((ts.map fun x => (x, first_order_step x 5 3 1 2)).insertionSort leFst).map Prod.fst)
      (((ts.map fun x => (x, first_order_step x 5 3 1 2)).insertionSort leFst).map Prod.snd)
      2
      (initialGuesses
        ((((ts.map fun x => (x, first_order_step x 5 3 1 2)).insertionSort leFst).map
          Prod.fst).map some)
        ((((ts.map fun x => (x, first_order_step x 5 3 1 2)).insertionSort leFst).map
          Prod.snd).map some) 2)
      (5, 3, 1), ?_, rfl, rfl, rfl, ?_, ?_⟩
  · rw [fit_first_order, hclean, if_neg hguard, fitStep_true, hopt]
  · show ((((((ts.map fun x => (x, first_order_step x 5 3 1 2)).insertionSort leFst).map
        Prod.snd).zip
      ((((ts.map fun x => (x, first_order_step x 5 3 1 2)).insertionSort leFst).map
        Prod.fst).map fun tt => first_order_step tt 5 3 1 2)).map
        fun p => p.1 - p.2).map fun v => v ^ 2).sum = 0
    rw [hyfit, zip_self_map_sub]
    exact sum_sq_zero_map _
  · show (if 0 < ((((ts.map fun x => (x, first_order_step x 5 3 1 2)).insertionSort
          leFst).map Prod.snd).map
        (fun v => (v - mean (((ts.map fun x => (x, first_order_step x 5 3 1 2)).insertionSort
          leFst).map Prod.snd)) ^ 2)).sum
      then some (1 - ((((((ts.map fun x => (x, first_order_step x 5 3 1 2)).insertionSort
            leFst).map Prod.snd).zip
          ((((ts.map fun x => (x, first_order_step x 5 3 1 2)).insertionSort leFst).map
            Prod.fst).map fun tt => first_order_step tt 5 3 1 2)).map
            fun p => p.1 - p.2).map fun v => v ^ 2).sum /
          ((((ts.map fun x => (x, first_order_step x 5 3 1 2)).insertionSort
            leFst).map Prod.snd).map
          (fun v => (v - mean (((ts.map fun x => (x, first_order_step x 5 3 1 2)).insertionSort
            leFst).map Prod.snd)) ^ 2)).sum)
      else none) = some 1
    rw [if_pos hSStot, hyfit, zip_self_map_sub, sum_sq_zero_map]
    norm_num

/-- A solver that reports the true parameter triple of the synthetic data. -/
def cfRound3 : CurveFit3 := fun _ _ _ _ _ => .ok (5, 3, 1)

/-- Witness for C9: five samples spanning the `t0 = 2` step. -/
theorem fit_round_trip_witness :
    (4 ≤ ([0, 1, 3, 5, 9] : List ℝ).length ∧
      (∃ a ∈ ([0, 1, 3, 5, 9] : List ℝ), ∃ b ∈ ([0, 1, 3, 5, 9] : List ℝ),
        a < b ∧ 2 < b) ∧
      (∀ (m : ℝ → ℝ → ℝ → ℝ → ℝ) (tc yc : List ℝ) (p0 : ℝ × ℝ × ℝ) (lb : ℝ),
        cfRound3 m tc yc p0 lb = .ok (5, 3, 1))) ∧
    (∃ r : FitResult,
      fit_first_order cfRound3 cfConst2 (([0, 1, 3, 5, 9] : List ℝ).map some)
        ((([0, 1, 3, 5, 9] : List ℝ).map fun tt => first_order_step tt 5 3 1 2).map some)
        2 true = .ok r ∧
      r.Ka = 5 ∧ r.tau = 3 ∧ r.y0 = 1 ∧ r.SSE = 0 ∧ r.R2 = some 1) :=
  ⟨⟨by norm_num,
      ⟨0, by norm_num, 3, by norm_num, by norm_num, by norm_num⟩,
      fun _ _ _ _ _ => rfl⟩,
    fit_round_trip cfRound3 cfConst2 [0, 1, 3, 5, 9] (by norm_num)
      ⟨0, by norm_num, 3, by norm_num, by norm_num, by norm_num⟩
      (fun _ _ _ _ _ => rfl)⟩

end

end FitModel
